import Mathlib

/-!
Verification of the miaoyu dictation application against its specification.

The development shallowly embeds the TypeScript front-end handlers
(src/routes/(dashboard)/models.tsx, src/components/audio-panel/index.tsx,
src/routes/transcribing.tsx, src/store.ts, scripts/check-models.ts) as pure
Lean functions, and models the transcript-ordering buffer of the dictation
pipeline from the specification (the Rust backend is not part of the
front-end sources).  Asynchronous command calls are represented by boolean
outcome oracles, and component state updates by explicit state passing.
-/

set_option maxHeartbeats 1000000

/-! ## Definitions : ASR model selection (models.tsx, handleAsrModelChange) -/

/-- Entry of the supported ASR model catalog (field `offline` marks an
offline model), as consumed by the models route. -/
structure AsrModel where
  id : String
  offline : Bool
deriving DecidableEq

/-- Entry of the offline model status payload returned by
`getOfflineModelsStatus` (field `ready` is the on-disk readiness flag). -/
structure OfflineModelStatus where
  id : String
  ready : Bool
deriving DecidableEq

/-- Observable outcome of one invocation of `handleAsrModelChange`:
either nothing happens (empty value), a notification is shown, or the
`setActiveAsrModel` mutation is invoked with the given model id. -/
inductive AsrChangeAction where
  | noop
  | notify (message : String)
  | setActive (modelId : String)
deriving DecidableEq

/-- Shallow embedding of `handleAsrModelChange` from
src/routes/(dashboard)/models.tsx (lines 403-416).  `offlineStatus` is the
resolved value of `offlineStatus?.models` (`none` while the query has no
data).  Optional chaining `target?.offline` and `status?.ready ?? false`
is modelled with `Option.map` + `Option.getD false`. -/
def handleAsrModelChange (asrModels : List AsrModel)
    (offlineStatus : Option (List OfflineModelStatus)) (value : String) :
    AsrChangeAction :=
  if value = "" then AsrChangeAction.noop
  else
    let target := asrModels.find? (fun model => model.id == value)
    let targetOffline := (target.map AsrModel.offline).getD false
    let status :=
      if targetOffline then
        (offlineStatus.getD []).find? (fun item => item.id == value)
      else Option.none
    let statusReady := (status.map OfflineModelStatus.ready).getD false
    if targetOffline && !statusReady then
      AsrChangeAction.notify "请先下载离线模型后再使用"
    else
      AsrChangeAction.setActive value

/-- Readiness reported for a model id by the offline status payload, i.e.
the value of `status?.ready ?? false` computed by `handleAsrModelChange`. -/
def offlineReadyFor (offlineStatus : Option (List OfflineModelStatus))
    (value : String) : Bool :=
  (((offlineStatus.getD []).find? (fun item => item.id == value)).map
    OfflineModelStatus.ready).getD false

/-! ## Definitions : LLM credential test-then-save (models.tsx, handleTestAndSave) -/

/-- Form state for one text model card (provider selection and API key). -/
structure TextModelFormValue where
  provider : String
  apiKey : String
deriving DecidableEq

/-- Variant of a per-model status message. -/
inductive StatusVariant where
  | success
  | error
deriving DecidableEq

/-- Per-model status message shown next to the save button. -/
structure StatusMessage where
  variant : StatusVariant
  text : String
deriving DecidableEq

/-- Embedding of the FRIENDLY_ERROR_MESSAGES record of models.tsx. -/
def FRIENDLY_ERROR_MESSAGES (modelId : String) : Option String :=
  if modelId = "deepseek" then Option.some "调用 DeepSeek API 失败，API 密钥错误"
  else if modelId = "qwen" then Option.some "调用通义千问 API 失败，API 密钥错误"
  else Option.none

/-- Observable trace of one run of `handleTestAndSave`: the argument triple
(modelId, providerId, apiKey) passed to `testLlmApiKey` if it was invoked,
the triple passed to `updateTextModelCredentials` if it was invoked, and
the status message stored for the model at the end of the run. -/
structure TestAndSaveRun where
  testedCall : Option (String × String × Option String)
  updateCall : Option (String × String × Option String)
  statusMessage : Option StatusMessage
deriving DecidableEq

/-- Key argument passed to both commands: the trimmed form key, with the
empty string turned into null, mirroring `formValue.apiKey.trim()` and
`apiKey || null`. -/
def keyArgOf (formValue : TextModelFormValue) : Option String :=
  if formValue.apiKey.trim = "" then Option.none
  else Option.some formValue.apiKey.trim

/-- Shallow embedding of `handleTestAndSave` from
src/routes/(dashboard)/models.tsx (lines 335-375).  The outcomes of the two
awaited commands are supplied by the oracles `testOk` (whether
`testLlmApiKey` resolves for the given arguments) and `updateOk` (whether
`updateTextModelCredentials` resolves). -/
def handleTestAndSave (formValues : String → Option TextModelFormValue)
    (testOk updateOk : String → String → Option String → Bool)
    (modelId : String) : TestAndSaveRun :=
  match formValues modelId with
  | Option.none => ⟨Option.none, Option.none, Option.none⟩
  | Option.some formValue =>
    let providerId := formValue.provider
    let keyArg := keyArgOf formValue
    if testOk modelId providerId keyArg then
      if updateOk modelId providerId keyArg then
        ⟨Option.some (modelId, providerId, keyArg),
         Option.some (modelId, providerId, keyArg),
         Option.some ⟨StatusVariant.success, "测试成功，已保存"⟩⟩
      else
        ⟨Option.some (modelId, providerId, keyArg),
         Option.some (modelId, providerId, keyArg),
         Option.some ⟨StatusVariant.error,
           (FRIENDLY_ERROR_MESSAGES modelId).getD "调用 API 失败，API 密钥错误"⟩⟩
    else
      ⟨Option.some (modelId, providerId, keyArg),
       Option.none,
       Option.some ⟨StatusVariant.error,
         (FRIENDLY_ERROR_MESSAGES modelId).getD "调用 API 失败，API 密钥错误"⟩⟩

/-! ## Definitions : offline model download (models.tsx, handleDownloadAsrModel) -/

/-- Component state relevant to model downloads: the `downloadingModel`
lock and the per-model `downloadProgress` map. -/
structure DownloadState where
  downloadingModel : Option String
  downloadProgress : String → Option Int

/-- Record of which backend commands a run of `handleDownloadAsrModel`
invoked. -/
structure DownloadCalls where
  downloadInvoked : Bool
  setActiveInvoked : Bool
deriving DecidableEq

/-- Synchronous prefix of `handleDownloadAsrModel` (models.tsx lines
380-386), up to the first await: if the `downloadingModel` lock is held the
handler returns immediately (boolean result false: `downloadOfflineModels`
is not invoked); otherwise it seeds the progress entry with 0 and takes the
lock. -/
def handleDownloadAsrModelStart (s : DownloadState) (modelId : String) :
    DownloadState × Bool :=
  match s.downloadingModel with
  | Option.some _ => (s, false)
  | Option.none =>
    (⟨Option.some modelId,
      fun k => if k = modelId then Option.some 0 else s.downloadProgress k⟩,
     true)

/-- Remainder of `handleDownloadAsrModel` (models.tsx lines 386-400) once
the download was started: `ok` tells whether `downloadOfflineModels`
resolved.  On success `setActiveAsrModel` is invoked (boolean result); on
failure the catch block only logs.  The finally block always clears the
lock and deletes the progress entry. -/
def handleDownloadAsrModelFinish (s : DownloadState) (modelId : String)
    (ok : Bool) : DownloadState × Bool :=
  (⟨Option.none,
    fun k => if k = modelId then Option.none else s.downloadProgress k⟩,
   ok)

/-- Complete run of `handleDownloadAsrModel` for one model id under the
download outcome `ok`, returning the final state and the set of invoked
commands. -/
def handleDownloadAsrModel (s : DownloadState) (modelId : String)
    (ok : Bool) : DownloadState × DownloadCalls :=
  match handleDownloadAsrModelStart s modelId with
  | (s1, false) => (s1, ⟨false, false⟩)
  | (s1, true) =>
    let r := handleDownloadAsrModelFinish s1 modelId ok
    (r.1, ⟨true, r.2⟩)

/-! ## Definitions : download progress events (models.tsx, setupListener) -/

/-- Payload of an offline-model-download-progress event. -/
structure ProgressEvent where
  modelId : String
  receivedBytes : Int
  totalBytes : Option Int
deriving DecidableEq

/-- JavaScript Math.round: round half toward positive infinity. -/
def mathRound (x : ℚ) : ℤ := ⌊x + 1 / 2⌋

/-- Shallow embedding of the offline-model-download-progress listener of
models.tsx (lines 237-269): one event updates the stored progress map.
When totalBytes is present and positive the percentage is
min(100, round(receivedBytes / totalBytes * 100)); otherwise the previous
entry (default 0) is kept.  The entry for the event's model id is always
written. -/
def onDownloadProgress (prev : String → Option Int) (e : ProgressEvent) :
    String → Option Int :=
  let percent : Int :=
    match e.totalBytes with
    | Option.some total =>
      if 0 < total then
        min 100 (mathRound ((e.receivedBytes : ℚ) / (total : ℚ) * 100))
      else (prev e.modelId).getD 0
    | Option.none => (prev e.modelId).getD 0
  fun k => if k = e.modelId then Option.some percent else prev k

/-- Progress map after a sequence of events, starting from the empty map. -/
def downloadProgressAfter (events : List ProgressEvent) :
    String → Option Int :=
  events.foldl onDownloadProgress (fun _ => Option.none)

/-- Percentage displayed by the Progress bar (models.tsx line 678):
Math.min(progressValue ?? 0, 100). -/
def displayPercent (stored : Option Int) : Int := min (stored.getD 0) 100

/-! ## Definitions : audio panel (audio-panel/index.tsx) -/

/-- Discriminated union AudioState received over audio-state-changed. -/
inductive AudioState where
  | idle
  | dictating (mode : String)
  | transcribing
deriving DecidableEq

/-- Value of the `type` discriminant of an AudioState, as compared by the
JSX guards `state.type === "idle"` etc. -/
def AudioState.typeStr : AudioState → String
  | AudioState.idle => "idle"
  | AudioState.dictating _ => "dictating"
  | AudioState.transcribing => "transcribing"

/-- The three child views of the audio panel. -/
inductive PanelView where
  | idleView
  | dictatingView (mode : String)
  | transcribingView
deriving DecidableEq

/-- Embedding of the AudioPanel render body (audio-panel/index.tsx lines
94-101): each of the three conditional JSX expressions contributes its view
exactly when its type guard holds. -/
def renderAudioPanel (state : AudioState) : List PanelView :=
  (if state.typeStr = "idle" then [PanelView.idleView] else []) ++
  (match state with
   | AudioState.dictating mode => [PanelView.dictatingView mode]
   | _ => []) ++
  (if state.typeStr = "transcribing" then [PanelView.transcribingView] else [])

/-- Panel state after a sequence of audio-state-changed events: useState
starts at idle and each event replaces the state with its payload. -/
def audioPanelState (events : List AudioState) : AudioState :=
  events.foldl (fun _ e => e) AudioState.idle

/-! ## Definitions : transcribing window (routes/transcribing.tsx) -/

/-- Embedding of the on-transcribing-stage listener (transcribing.tsx lines
16-23): the stage is replaced only when the payload stage is asr or
polishing; the argument is the resolved value of event.payload?.stage. -/
def onTranscribingStage (stage : String) (payloadStage : Option String) :
    String :=
  match payloadStage with
  | Option.some next =>
    if next = "asr" ∨ next = "polishing" then next else stage
  | Option.none => stage

/-- Stage after a sequence of on-transcribing-stage events; useState starts
at asr. -/
def transcribingStage (events : List (Option String)) : String :=
  events.foldl onTranscribingStage "asr"

/-- Filter selecting exactly the payloads that change the stage. -/
def validStage (payloadStage : Option String) : Option String :=
  match payloadStage with
  | Option.some next =>
    if next = "asr" ∨ next = "polishing" then Option.some next
    else Option.none
  | Option.none => Option.none

/-- Label rendered by the transcribing window (transcribing.tsx line 32). -/
def transcribingLabel (stage : String) : String :=
  if stage = "polishing" then "AI 润色中" else "转录中"

/-! ## Definitions : model check script (scripts/check-models.ts) -/

/-- The REQUIRED_MODELS table of scripts/check-models.ts as (path,
description) pairs. -/
def REQUIRED_MODELS : List (String × String) :=
  [("asr/model.int8.onnx", "Paraformer ASR 模型"),
   ("asr/am.mvn", "ASR 均值方差参数"),
   ("asr/tokens.txt", "ASR 词表"),
   ("punc/model.onnx", "标点补全模型"),
   ("punc/tokens.json", "标点模型词表"),
   ("punc/config.yaml", "标点模型配置"),
   ("vad/silero_vad.onnx", "Silero VAD 模型")]

/-- Line pushed onto the missing list for one absent model file. -/
def missingLabel (m : String × String) : String :=
  m.2 ++ "（" ++ m.1 ++ "）"

/-- Result of one run of the script: the missing lines printed, the exit
code set by process.exit (none when not called) and whether the success
message was printed. -/
structure CheckModelsRun where
  missingListed : List String
  exitCode : Option Nat
  successMessage : Bool
deriving DecidableEq

/-- Shallow embedding of main of scripts/check-models.ts (lines 48-72):
`present` tells whether a required file exists under the models root. -/
def checkModelsMain (present : String → Bool) : CheckModelsRun :=
  let missing :=
    (REQUIRED_MODELS.filter (fun m => !(present m.1))).map missingLabel
  if missing.length > 0 then ⟨missing, Option.some 1, false⟩
  else ⟨missing, Option.none, true⟩

/-! ## Definitions : key-value store (src/store.ts, declareStore) -/

/-- JavaScript object spread {...current, ...patch} on objects viewed as
partial functions from field names to values: fields present in the patch
override, all other fields come from current. -/
def spreadObj {V : Type} (current patch : String → Option V) :
    String → Option V :=
  fun f =>
    match patch f with
    | Option.some v => Option.some v
    | Option.none => current f

/-- State of the tauri plugin store: the in-memory entries and the
entries last persisted to disk by save(). -/
structure TauriStore (V : Type) where
  entries : String → Option (String → Option V)
  persisted : String → Option (String → Option V)

/-- Embedding of store.save(): persists the current entries. -/
def storeSave {V : Type} (s : TauriStore V) : TauriStore V :=
  { s with persisted := s.entries }

/-- Shallow embedding of the set closure of declareStore (src/store.ts
lines 33-47) for the store key `name`: set(undefined) (modelled as
Option.none) deletes the entry, set(patch) writes the spread of the current
object (default empty) with the patch, and both branches end with save(). -/
def storeSet {V : Type} (s : TauriStore V) (name : String)
    (value : Option (String → Option V)) : TauriStore V :=
  let entries1 :=
    match value with
    | Option.none => fun k => if k = name then Option.none else s.entries k
    | Option.some patch =>
      let current := (s.entries name).getD (fun _ => Option.none)
      fun k =>
        if k = name then Option.some (spreadObj current patch)
        else s.entries k
  storeSave { s with entries := entries1 }

/-! ## Definitions : ordered transcript assembly (modelled from the spec) -/

/-- Modelled from the spec: state of the transcript ordering buffer of the
dictation pipeline (spec §5 "ordering buffer keyed by sequence number" and
§4.3; the Rust implementation under src-tauri is not part of the available
sources).  `next` is the next utterance sequence number to append, `buf`
holds completed segments whose predecessors are still pending, `out` is the
transcript assembled so far. -/
structure AsmState where
  next : Nat
  buf : List (Nat × String)
  out : List String
deriving DecidableEq

/-- Lookup of a sequence number in the ordering buffer. -/
def lookupSeq (k : Nat) : List (Nat × String) → Option String
  | [] => Option.none
  | p :: ps => if p.1 = k then Option.some p.2 else lookupSeq k ps

/-- Removal of the first entry with the given sequence number. -/
def eraseSeq (k : Nat) : List (Nat × String) → List (Nat × String)
  | [] => []
  | p :: ps => if p.1 = k then ps else p :: eraseSeq k ps

/-- Sequence numbers stored in a buffer. -/
def keysOf (l : List (Nat × String)) : List Nat := l.map Prod.fst

/-- Modelled from the spec: drain loop of the ordering buffer — as long as
the segment with the next sequence number is buffered, append it to the
transcript.  The loop runs at most once per buffered entry, so the buffer
length is enough fuel. -/
def drainAux : Nat → AsmState → AsmState
  | 0, s => s
  | fuel + 1, s =>
    match lookupSeq s.next s.buf with
    | Option.some t =>
      drainAux fuel ⟨s.next + 1, eraseSeq s.next s.buf, s.out ++ [t]⟩
    | Option.none => s

/-- Drain with the buffer length as fuel. -/
def drain (s : AsmState) : AsmState := drainAux s.buf.length s

/-- Modelled from the spec: arrival of one completed inference result
(sequence number, punctuated text) at the assembler — buffer it, then
drain. -/
def asmStep (s : AsmState) (c : Nat × String) : AsmState :=
  drain ⟨s.next, c :: s.buf, s.out⟩

/-- Modelled from the spec: transcript assembly over a completion order,
starting from an empty session. -/
def assemble (completions : List (Nat × String)) : AsmState :=
  completions.foldl asmStep ⟨0, [], []⟩

/-- Modelled from the spec: per-utterance pipeline output — ASR text of
each closed utterance, then punctuation restoration (spec §2 data flow). -/
def segmentTexts {Utt : Type} (asr : Utt → String) (punct : String → String)
    (us : List Utt) : List String :=
  us.map (fun u => punct (asr u))

/-- Invariant of the transcript assembler: relative to the final texts and
the multiset of already-processed sequence numbers `ks`, the buffer holds
correct still-pending segments, the transcript is the prefix below `next`,
and the buffer is drained. -/
structure AsmInv (texts : List String) (ks : List Nat) (s : AsmState) :
    Prop where
  nodupBuf : (keysOf s.buf).Nodup
  bufGood : ∀ p ∈ s.buf, texts[p.1]? = Option.some p.2 ∧ s.next ≤ p.1
  outTake : s.out = texts.take s.next
  belowProcessed : ∀ i < s.next, i ∈ ks
  bufProcessed : ∀ i ∈ keysOf s.buf, i ∈ ks
  pendingBuffered : ∀ i ∈ ks, s.next ≤ i → i ∈ keysOf s.buf
  drained : lookupSeq s.next s.buf = Option.none

/-! ## Definitions : concrete example inputs used by witnesses -/

/-- Example download state whose lock is held. -/
def exampleDownloadBusy : DownloadState :=
  ⟨Option.some "model-a", fun _ => Option.none⟩

/-- Example download state with a free lock. -/
def exampleDownloadIdle : DownloadState :=
  ⟨Option.none, fun _ => Option.none⟩

/-- Example store with one settings entry. -/
def exampleStore : TauriStore Nat :=
  ⟨fun k =>
     if k = "settings" then
       Option.some (fun f => if f = "theme" then Option.some 1 else Option.none)
     else Option.none,
   fun _ => Option.none⟩

/-- Example patch mentioning only the lang field. -/
def examplePatch : String → Option Nat :=
  fun f => if f = "lang" then Option.some 2 else Option.none

/-! ## Theorems -/

theorem foldl_replace_getLast {α : Type} (l : List α) (init : α) :
    l.foldl (fun _ e => e) init = (l.getLast?).getD init := by
  rw [← List.getLastD_eq_getLast?]
  induction l generalizing init with
  | nil => rfl
  | cons e es ih => rw [List.foldl_cons, List.getLastD_cons, ih]

/-- C1: on a selection request for a model listed in the catalog, if the
selected model is marked offline and its offline status does not report
ready, the handler emits the notification 请先下载离线模型后再使用 and does
not invoke setActiveAsrModel; setActiveAsrModel is invoked only when the
selected model is non-offline or ready. -/
theorem handleAsrModelChange_offline_guard
    (asrModels : List AsrModel)
    (offlineStatus : Option (List OfflineModelStatus))
    (value : String) (m : AsrModel)
    (hv : value ≠ "")
    (hfind : asrModels.find? (fun model => model.id == value) =
      Option.some m) :
    (m.offline = true → offlineReadyFor offlineStatus value = false →
      handleAsrModelChange asrModels offlineStatus value =
        AsrChangeAction.notify "请先下载离线模型后再使用") ∧
    (∀ id, handleAsrModelChange asrModels offlineStatus value =
        AsrChangeAction.setActive id →
      m.offline = false ∨ offlineReadyFor offlineStatus value = true) := by
  constructor
  · intro hoff hready
    have hr : (((offlineStatus.getD []).find?
        (fun item => item.id == value)).map OfflineModelStatus.ready).getD
          false = false := hready
    simp [handleAsrModelChange, hv, hfind, hoff, hr]
  · intro id hset
    cases hoff : m.offline with
    | false => exact Or.inl rfl
    | true =>
      refine Or.inr ?_
      cases hready : offlineReadyFor offlineStatus value with
      | true => rfl
      | false =>
        exfalso
        have hr : (((offlineStatus.getD []).find?
            (fun item => item.id == value)).map OfflineModelStatus.ready).getD
              false = false := hready
        rw [show handleAsrModelChange asrModels offlineStatus value =
          AsrChangeAction.notify "请先下载离线模型后再使用" by
            simp [handleAsrModelChange, hv, hfind, hoff, hr]] at hset
        exact AsrChangeAction.noConfusion hset

/-- C1 witness: a concrete offline model with no ready status triggers the
notification. -/
theorem handleAsrModelChange_offline_guard_w :
    handleAsrModelChange [⟨"off1", true⟩] Option.none "off1" =
      AsrChangeAction.notify "请先下载离线模型后再使用" :=
  (handleAsrModelChange_offline_guard [⟨"off1", true⟩] Option.none "off1"
    ⟨"off1", true⟩ (by decide) (by decide)).1 rfl rfl

/-- C6: the audio panel state starts idle and equals the payload of the
most recently received audio-state-changed event, and the render body shows
exactly one view, IdleView iff the type is idle, DictatingView with the
event mode iff the type is dictating, TranscribingView iff the type is
transcribing. -/
theorem audioPanel_render_spec :
    (∀ events : List AudioState,
      audioPanelState events = (events.getLast?).getD AudioState.idle) ∧
    (∀ s : AudioState, (renderAudioPanel s).length = 1) ∧
    (∀ s : AudioState,
      PanelView.idleView ∈ renderAudioPanel s ↔ s = AudioState.idle) ∧
    (∀ (s : AudioState) (mode : String),
      PanelView.dictatingView mode ∈ renderAudioPanel s ↔
        s = AudioState.dictating mode) ∧
    (∀ s : AudioState,
      PanelView.transcribingView ∈ renderAudioPanel s ↔
        s = AudioState.transcribing) := by
  refine ⟨fun events => foldl_replace_getLast events AudioState.idle,
    ?_, ?_, ?_, ?_⟩
  · intro s
    cases s <;> simp [renderAudioPanel, AudioState.typeStr]
  · intro s
    cases s <;> simp [renderAudioPanel, AudioState.typeStr]
  · intro s mode
    cases s <;> simp [renderAudioPanel, AudioState.typeStr, eq_comm]
  · intro s
    cases s <;> simp [renderAudioPanel, AudioState.typeStr]

theorem transcribingStage_foldl (events : List (Option String))
    (init : String) :
    events.foldl onTranscribingStage init =
      (events.filterMap validStage).getLastD init := by
  induction events generalizing init with
  | nil => rfl
  | cons e es ih =>
    cases e with
    | none => rw [List.foldl_cons, ih]; rfl
    | some next =>
      by_cases hvalid : next = "asr" ∨ next = "polishing"
      · have h1 : validStage (Option.some next) = Option.some next := by
          simp [validStage, hvalid]
        have h2 : onTranscribingStage init (Option.some next) = next := by
          simp [onTranscribingStage, hvalid]
        rw [List.foldl_cons, h2, ih, List.filterMap_cons, h1,
          List.getLastD_cons]
      · have h1 : validStage (Option.some next) = Option.none := by
          simp [validStage, hvalid]
        have h2 : onTranscribingStage init (Option.some next) = init := by
          simp [onTranscribingStage, hvalid]
        rw [List.foldl_cons, h2, ih, List.filterMap_cons, h1]

/-- C7: the transcribing stage starts as asr and equals the stage of the
last event whose payload stage is asr or polishing (other or missing
payloads leave it unchanged), and the label is AI 润色中 exactly when the
stage is polishing and 转录中 otherwise. -/
theorem transcribingStage_spec :
    (∀ events : List (Option String),
      transcribingStage events =
        ((events.filterMap validStage).getLast?).getD "asr") ∧
    (∀ stage : String,
      (transcribingLabel stage = "AI 润色中" ↔ stage = "polishing") ∧
      (transcribingLabel stage = "转录中" ↔ ¬ stage = "polishing")) := by
  constructor
  · intro events
    rw [transcribingStage, transcribingStage_foldl,
      List.getLastD_eq_getLast?]
  · intro stage
    by_cases h : stage = "polishing" <;>
      simp [transcribingLabel, h]

theorem missingLabel_inj :
    ∀ a ∈ REQUIRED_MODELS, ∀ b ∈ REQUIRED_MODELS,
      missingLabel a = missingLabel b → a = b := by decide

theorem checkModelsMain_missingListed (present : String → Bool) :
    (checkModelsMain present).missingListed =
      (REQUIRED_MODELS.filter (fun m => !(present m.1))).map missingLabel := by
  simp only [checkModelsMain]
  split <;> rfl

/-- C9: the check-models script exits with code 1 and lists every missing
required file exactly when at least one of the seven required files is
absent; when all seven are present it prints the success message and sets
no failure exit code. -/
theorem checkModels_spec (present : String → Bool) :
    ((checkModelsMain present).exitCode = Option.some 1 ↔
      ∃ m ∈ REQUIRED_MODELS, present m.1 = false) ∧
    ((checkModelsMain present).exitCode = Option.none ∧
        (checkModelsMain present).successMessage = true ↔
      ∀ m ∈ REQUIRED_MODELS, present m.1 = true) ∧
    (∀ m ∈ REQUIRED_MODELS,
      (present m.1 = false ↔
        missingLabel m ∈ (checkModelsMain present).missingListed)) := by
  have hlen : ((REQUIRED_MODELS.filter (fun m => !(present m.1))).map
      missingLabel).length > 0 ↔ ∃ m ∈ REQUIRED_MODELS, present m.1 = false := by
    simp [List.length_pos, List.filter_eq_nil_iff]
  refine ⟨?_, ?_, ?_⟩
  · simp only [checkModelsMain]
    split
    · next h => simpa using hlen.mp h
    · next h =>
      constructor
      · intro hcontra
        exact Option.noConfusion hcontra
      · intro hex
        exact absurd (hlen.mpr hex) h
  · simp only [checkModelsMain]
    split
    · next h =>
      constructor
      · intro hcontra
        exact Option.noConfusion hcontra.1
      · intro hall
        refine absurd h ?_
        simp only [gt_iff_lt, not_lt, Nat.le_zero, List.length_eq_zero,
          List.map_eq_nil_iff, List.filter_eq_nil_iff]
        intro m hm
        simp [hall m hm]
    · next h =>
      constructor
      · intro _
        intro m hm
        by_contra hfalse
        simp only [Bool.not_eq_true] at hfalse
        exact h (hlen.mpr ⟨m, hm, hfalse⟩)
      · intro _
        exact ⟨rfl, rfl⟩
  · intro m hm
    rw [checkModelsMain_missingListed]
    constructor
    · intro habsent
      exact List.mem_map_of_mem missingLabel
        (List.mem_filter.mpr ⟨hm, by simp [habsent]⟩)
    · intro hmem
      obtain ⟨m', hm', heq⟩ := List.mem_map.mp hmem
      have hm'filter := List.mem_filter.mp hm'
      have : m' = m := missingLabel_inj m' (hm'filter.1) m hm heq
      rw [← this]
      simpa using hm'filter.2

/-- C9 witness: with only the VAD model file absent the script fails with
exit code 1 and lists that file; with everything present it succeeds. -/
theorem checkModels_spec_w :
    (checkModelsMain (fun p => !(p == "vad/silero_vad.onnx"))).exitCode =
        Option.some 1 ∧
    "Silero VAD 模型（vad/silero_vad.onnx）" ∈
      (checkModelsMain
        (fun p => !(p == "vad/silero_vad.onnx"))).missingListed ∧
    (checkModelsMain (fun _ => true)).successMessage = true :=
  ⟨(checkModels_spec (fun p => !(p == "vad/silero_vad.onnx"))).1.mpr
      ⟨("vad/silero_vad.onnx", "Silero VAD 模型"), by decide, by decide⟩,
   ((checkModels_spec (fun p => !(p == "vad/silero_vad.onnx"))).2.2
      ("vad/silero_vad.onnx", "Silero VAD 模型") (by decide)).mp (by decide),
   ((checkModels_spec (fun _ => true)).2.1.mpr (by decide)).2⟩

/-- C10: for every store declared via declareStore, set with a defined
partial value writes the spread of the current stored object (default
empty) with the partial, so every field absent from the partial keeps its
previous value and every field present takes the partial value;
set(undefined) deletes the whole entry; and set persists the entries via
save() before returning. -/
theorem declareStore_set_spec (V : Type) (s : TauriStore V) (name : String)
    (patch : String → Option V) :
    ((storeSet s name (Option.some patch)).entries name =
      Option.some
        (spreadObj ((s.entries name).getD (fun _ => Option.none)) patch)) ∧
    (∀ f, patch f = Option.none →
      spreadObj ((s.entries name).getD (fun _ => Option.none)) patch f =
        ((s.entries name).getD (fun _ => Option.none)) f) ∧
    (∀ f v, patch f = Option.some v →
      spreadObj ((s.entries name).getD (fun _ => Option.none)) patch f =
        Option.some v) ∧
    ((storeSet s name Option.none).entries name = Option.none) ∧
    (∀ value, (storeSet s name value).persisted =
      (storeSet s name value).entries) := by
  refine ⟨?_, ?_, ?_, ?_, ?_⟩
  · simp [storeSet, storeSave]
  · intro f hf
    simp [spreadObj, hf]
  · intro f v hf
    simp [spreadObj, hf]
  · simp [storeSet, storeSave]
  · intro value
    cases value <;> rfl

/-- C10 witness: on a concrete store, a patch not mentioning the theme
field keeps the stored theme value, deleting removes the entry, and set
leaves the persisted entries equal to the in-memory entries. -/
theorem declareStore_set_spec_w :
    spreadObj ((exampleStore.entries "settings").getD (fun _ => Option.none))
        examplePatch "theme" =
      ((exampleStore.entries "settings").getD (fun _ => Option.none))
        "theme" ∧
    spreadObj ((exampleStore.entries "settings").getD (fun _ => Option.none))
        examplePatch "lang" = Option.some 2 ∧
    (storeSet exampleStore "settings" Option.none).entries "settings" =
      Option.none ∧
    (storeSet exampleStore "settings" (Option.some examplePatch)).persisted =
      (storeSet exampleStore "settings" (Option.some examplePatch)).entries :=
  ⟨(declareStore_set_spec Nat exampleStore "settings" examplePatch).2.1 "theme" (by decide),
   (declareStore_set_spec Nat exampleStore "settings" examplePatch).2.2.1 "lang" 2 (by decide),
   (declareStore_set_spec Nat exampleStore "settings" examplePatch).2.2.2.1,
   (declareStore_set_spec Nat exampleStore "settings" examplePatch).2.2.2.2 (Option.some examplePatch)⟩

/-- C3: credential update is two-phase test-then-commit — on a run of
handleTestAndSave with a form value, updateTextModelCredentials is invoked
only when testLlmApiKey resolved successfully for the same provider and
key; if the probe rejects, no credential-persisting call is made and an
error status message is stored for the model. -/
theorem handleTestAndSave_two_phase
    (formValues : String → Option TextModelFormValue)
    (testOk updateOk : String → String → Option String → Bool)
    (modelId : String) (fv : TextModelFormValue)
    (hfv : formValues modelId = Option.some fv) :
    ((handleTestAndSave formValues testOk updateOk modelId).updateCall.isSome
        = true →
      testOk modelId fv.provider (keyArgOf fv) = true ∧
      (handleTestAndSave formValues testOk updateOk modelId).updateCall =
        Option.some (modelId, fv.provider, keyArgOf fv) ∧
      (handleTestAndSave formValues testOk updateOk modelId).testedCall =
        Option.some (modelId, fv.provider, keyArgOf fv)) ∧
    (testOk modelId fv.provider (keyArgOf fv) = false →
      (handleTestAndSave formValues testOk updateOk modelId).updateCall =
        Option.none ∧
      (handleTestAndSave formValues testOk updateOk modelId).testedCall =
        Option.some (modelId, fv.provider, keyArgOf fv) ∧
      (handleTestAndSave formValues testOk updateOk modelId).statusMessage =
        Option.some ⟨StatusVariant.error,
          (FRIENDLY_ERROR_MESSAGES modelId).getD
            "调用 API 失败，API 密钥错误"⟩) := by
  cases htest : testOk modelId fv.provider (keyArgOf fv) with
  | true =>
    cases hupd : updateOk modelId fv.provider (keyArgOf fv) with
    | true =>
      constructor
      · intro _
        refine ⟨rfl, ?_, ?_⟩ <;> simp [handleTestAndSave, hfv, htest, hupd]
      · intro hfalse
        simp at hfalse
    | false =>
      constructor
      · intro _
        refine ⟨rfl, ?_, ?_⟩ <;> simp [handleTestAndSave, hfv, htest, hupd]
      · intro hfalse
        simp at hfalse
  | false =>
    constructor
    · intro hsome
      exfalso
      rw [show (handleTestAndSave formValues testOk updateOk
          modelId).updateCall = Option.none by
        simp [handleTestAndSave, hfv, htest]] at hsome
      exact Bool.noConfusion hsome
    · intro _
      refine ⟨?_, ?_, ?_⟩ <;> simp [handleTestAndSave, hfv, htest]

/-- C3 witness: with a rejecting probe the handler makes no persisting call
and stores the error status for the deepseek model. -/
theorem handleTestAndSave_two_phase_w :
    (handleTestAndSave (fun _ => Option.some ⟨"deepseek-provider", "k"⟩)
        (fun _ _ _ => false) (fun _ _ _ => true) "deepseek").updateCall =
      Option.none ∧
    (handleTestAndSave (fun _ => Option.some ⟨"deepseek-provider", "k"⟩)
        (fun _ _ _ => false) (fun _ _ _ => true) "deepseek").statusMessage =
      Option.some ⟨StatusVariant.error, "调用 DeepSeek API 失败，API 密钥错误"⟩ :=
  ⟨((handleTestAndSave_two_phase (fun _ => Option.some ⟨"deepseek-provider", "k"⟩)
      (fun _ _ _ => false) (fun _ _ _ => true) "deepseek"
      ⟨"deepseek-provider", "k"⟩ rfl).2 rfl).1,
   ((handleTestAndSave_two_phase (fun _ => Option.some ⟨"deepseek-provider", "k"⟩)
      (fun _ _ _ => false) (fun _ _ _ => true) "deepseek"
      ⟨"deepseek-provider", "k"⟩ rfl).2 rfl).2.2⟩

/-- C4: at most one model download is in flight — whenever
downloadingModel is non-null a further call of handleDownloadAsrModel for
any model id returns immediately without invoking downloadOfflineModels
and without changing the state, a started download holds the lock, and
downloadingModel is reset to null when the running download completes or
fails. -/
theorem download_lock_exclusive (s : DownloadState) (modelId m : String)
    (ok : Bool) :
    (s.downloadingModel = Option.some m →
      handleDownloadAsrModel s modelId ok =
        (s, ⟨false, false⟩)) ∧
    (s.downloadingModel = Option.none →
      (handleDownloadAsrModelStart s modelId).1.downloadingModel =
        Option.some modelId) ∧
    ((handleDownloadAsrModelFinish s modelId ok).1.downloadingModel =
      Option.none) := by
  refine ⟨?_, ?_, rfl⟩
  · intro hbusy
    simp [handleDownloadAsrModel, handleDownloadAsrModelStart, hbusy]
  · intro hfree
    simp [handleDownloadAsrModelStart, hfree]

/-- C4 witness: with the lock held a second call is a no-op with no
download command, and a finished download clears the lock. -/
theorem download_lock_exclusive_w :
    handleDownloadAsrModel exampleDownloadBusy "model-b" true =
      (exampleDownloadBusy, ⟨false, false⟩) ∧
    (handleDownloadAsrModelFinish exampleDownloadBusy "model-a"
      false).1.downloadingModel = Option.none :=
  ⟨(download_lock_exclusive exampleDownloadBusy "model-b" "model-a" true).1
      rfl,
   (download_lock_exclusive exampleDownloadBusy "model-a" "model-a"
      false).2.2⟩

/-- C8: in handleDownloadAsrModel, setActiveAsrModel is invoked if and
only if downloadOfflineModels was invoked and resolved successfully; and
when the handler actually starts a download, the final state has the
per-model progress entry removed and downloadingModel reset to null
whether the download succeeds or fails. -/
theorem download_then_activate (s : DownloadState) (modelId : String)
    (ok : Bool) :
    ((handleDownloadAsrModel s modelId ok).2.setActiveInvoked = true ↔
      (handleDownloadAsrModel s modelId ok).2.downloadInvoked = true ∧
        ok = true) ∧
    (s.downloadingModel = Option.none →
      (handleDownloadAsrModel s modelId ok).1.downloadingModel =
          Option.none ∧
        (handleDownloadAsrModel s modelId ok).1.downloadProgress modelId =
          Option.none) := by
  cases hlock : s.downloadingModel with
  | some m =>
    constructor
    · simp [handleDownloadAsrModel, handleDownloadAsrModelStart, hlock]
    · intro hfree
      exact Option.noConfusion hfree
  | none =>
    constructor
    · simp [handleDownloadAsrModel, handleDownloadAsrModelStart,
        handleDownloadAsrModelFinish, hlock]
    · intro _
      constructor
      · simp [handleDownloadAsrModel, handleDownloadAsrModelStart,
          handleDownloadAsrModelFinish, hlock]
      · simp [handleDownloadAsrModel, handleDownloadAsrModelStart,
          handleDownloadAsrModelFinish, hlock]

/-- C8 witness: a successful download from an idle state activates the
model and clears lock and progress; a failed one skips activation. -/
theorem download_then_activate_w :
    (handleDownloadAsrModel exampleDownloadIdle "model-a"
        true).2.setActiveInvoked = true ∧
    (handleDownloadAsrModel exampleDownloadIdle "model-a"
        false).2.setActiveInvoked = false ∧
    (handleDownloadAsrModel exampleDownloadIdle "model-a"
        true).1.downloadingModel = Option.none ∧
    (handleDownloadAsrModel exampleDownloadIdle "model-a"
        true).1.downloadProgress "model-a" = Option.none :=
  ⟨(download_then_activate exampleDownloadIdle "model-a" true).1.mpr
      ⟨rfl, rfl⟩,
   Bool.not_eq_true _ |>.mp (fun habs =>
      Bool.noConfusion (((download_then_activate exampleDownloadIdle
        "model-a" false).1.mp habs).2)),
   ((download_then_activate exampleDownloadIdle "model-a" true).2 rfl).1,
   ((download_then_activate exampleDownloadIdle "model-a" true).2 rfl).2⟩

theorem mathRound_nonneg (x : ℚ) (hx : 0 ≤ x) : 0 ≤ mathRound x := by
  unfold mathRound
  rw [Int.le_floor]
  push_cast
  linarith

theorem onDownloadProgress_range (prev : String → Option Int)
    (e : ProgressEvent) (hr : 0 ≤ e.receivedBytes)
    (hprev : ∀ k v, prev k = Option.some v → 0 ≤ v ∧ v ≤ 100) :
    ∀ k v, onDownloadProgress prev e k = Option.some v →
      0 ≤ v ∧ v ≤ 100 := by
  intro k v h
  have hdef : ∀ w, (prev e.modelId).getD 0 = w → 0 ≤ w ∧ w ≤ 100 := by
    intro w hw
    cases hp : prev e.modelId with
    | none => rw [hp] at hw; simp at hw; omega
    | some u =>
      rw [hp] at hw
      simp at hw
      rw [← hw]
      exact hprev e.modelId u hp
  simp only [onDownloadProgress] at h
  by_cases hk : k = e.modelId
  · rw [if_pos hk, Option.some.injEq] at h
    subst h
    cases e.totalBytes with
    | none => exact hdef _ rfl
    | some total =>
      dsimp only
      by_cases hpos : 0 < total
      · rw [if_pos hpos]
        have hrq : (0 : ℚ) ≤ (e.receivedBytes : ℚ) := by exact_mod_cast hr
        have htq : (0 : ℚ) < (total : ℚ) := by exact_mod_cast hpos
        constructor
        · refine le_min (by norm_num) ?_
          refine mathRound_nonneg _ ?_
          exact mul_nonneg (div_nonneg hrq (le_of_lt htq)) (by norm_num)
        · exact min_le_left _ _
      · rw [if_neg hpos]
        exact hdef _ rfl
  · rw [if_neg hk] at h
    exact hprev k v h

theorem foldl_onDownloadProgress_range (events : List ProgressEvent)
    (prev : String → Option Int)
    (hr : ∀ e ∈ events, 0 ≤ e.receivedBytes)
    (hprev : ∀ k v, prev k = Option.some v → 0 ≤ v ∧ v ≤ 100) :
    ∀ k v, (events.foldl onDownloadProgress prev) k = Option.some v →
      0 ≤ v ∧ v ≤ 100 := by
  induction events generalizing prev with
  | nil => exact hprev
  | cons e es ih =>
    rw [List.foldl_cons]
    refine ih (onDownloadProgress prev e) (fun x hx => hr x (by simp [hx]))
      (onDownloadProgress_range prev e (hr e (by simp)) hprev)

/-- C5: a progress event with positive totalBytes stores
min(100, round(receivedBytes / totalBytes * 100)) for its model id, an
event without usable totalBytes keeps the previous stored percentage
(default 0), and after any sequence of events with nonnegative
receivedBytes every stored and displayed percentage lies in [0, 100]. -/
theorem downloadProgress_spec :
    (∀ (prev : String → Option Int) (e : ProgressEvent) (total : Int),
      e.totalBytes = Option.some total → 0 < total →
      onDownloadProgress prev e e.modelId =
        Option.some (min 100
          (mathRound ((e.receivedBytes : ℚ) / (total : ℚ) * 100)))) ∧
    (∀ (prev : String → Option Int) (e : ProgressEvent),
      (e.totalBytes = Option.none ∨
        ∃ total ≤ 0, e.totalBytes = Option.some total) →
      onDownloadProgress prev e e.modelId =
        Option.some ((prev e.modelId).getD 0)) ∧
    (∀ events : List ProgressEvent,
      (∀ e ∈ events, 0 ≤ e.receivedBytes) →
      ∀ k v, downloadProgressAfter events k = Option.some v →
        0 ≤ v ∧ v ≤ 100) ∧
    (∀ events : List ProgressEvent,
      (∀ e ∈ events, 0 ≤ e.receivedBytes) →
      ∀ k, 0 ≤ displayPercent (downloadProgressAfter events k) ∧
        displayPercent (downloadProgressAfter events k) ≤ 100) := by
  have hrange : ∀ events : List ProgressEvent,
      (∀ e ∈ events, 0 ≤ e.receivedBytes) →
      ∀ k v, downloadProgressAfter events k = Option.some v →
        0 ≤ v ∧ v ≤ 100 := by
    intro events hr
    exact foldl_onDownloadProgress_range events (fun _ => Option.none) hr
      (fun k v h => Option.noConfusion h)
  refine ⟨?_, ?_, hrange, ?_⟩
  · intro prev e total htot hpos
    simp [onDownloadProgress, htot, hpos]
  · intro prev e hcase
    rcases hcase with hnone | ⟨total, hle, hsome⟩
    · simp [onDownloadProgress, hnone]
    · simp [onDownloadProgress, hsome, not_lt.mpr hle]
  · intro events hr k
    unfold displayPercent
    cases hp : downloadProgressAfter events k with
    | none => simp
    | some v =>
      have hv := hrange events hr k v hp
      simp only [Option.getD_some]
      omega

/-- C5 witness: a concrete event with totalBytes 100 stores the claimed
formula, an event without totalBytes keeps the default 0, and the stored
and displayed percentages of a concrete run lie in [0, 100]. -/
theorem downloadProgress_spec_w :
    onDownloadProgress (fun _ => Option.none)
        ⟨"m", 42, Option.some 100⟩ "m" =
      Option.some (min 100
        (mathRound ((((42 : Int)) : ℚ) / (((100 : Int)) : ℚ) * 100))) ∧
    onDownloadProgress (fun _ => Option.none) ⟨"m", 5, Option.none⟩ "m" =
      Option.some 0 ∧
    (0 ≤ (0 : Int) ∧ (0 : Int) ≤ 100) ∧
    (0 ≤ displayPercent (downloadProgressAfter [⟨"m", 5, Option.none⟩] "m") ∧
      displayPercent (downloadProgressAfter [⟨"m", 5, Option.none⟩] "m") ≤
        100) :=
  ⟨downloadProgress_spec.1 (fun _ => Option.none) ⟨"m", 42, Option.some 100⟩
      100 rfl (by decide),
   downloadProgress_spec.2.1 (fun _ => Option.none) ⟨"m", 5, Option.none⟩
      (Or.inl rfl),
   downloadProgress_spec.2.2.1 [⟨"m", 5, Option.none⟩] (by decide) "m" 0
      rfl,
   downloadProgress_spec.2.2.2 [⟨"m", 5, Option.none⟩] (by decide) "m"⟩

theorem lookupSeq_eq_none_iff (k : Nat) (l : List (Nat × String)) :
    lookupSeq k l = Option.none ↔ k ∉ keysOf l := by
  induction l with
  | nil => simp [lookupSeq, keysOf]
  | cons p ps ih =>
    by_cases hp : p.1 = k
    · simp [lookupSeq, hp, keysOf]
    · simp only [lookupSeq, if_neg hp, keysOf, List.map_cons,
        List.mem_cons, not_or]
      rw [ih]
      simp [keysOf]
      intro _
      exact fun he => hp he.symm

theorem mem_of_lookupSeq {k : Nat} {l : List (Nat × String)} {t : String}
    (h : lookupSeq k l = Option.some t) : (k, t) ∈ l := by
  induction l with
  | nil => exact absurd h (by simp [lookupSeq])
  | cons p ps ih =>
    by_cases hp : p.1 = k
    · simp only [lookupSeq, if_pos hp, Option.some.injEq] at h
      have : p = (k, t) := by
        cases p
        simp only at hp h
        simp [hp, h]
      rw [← this]
      exact List.mem_cons_self p ps
    · simp only [lookupSeq, if_neg hp] at h
      exact List.mem_cons_of_mem p (ih h)

theorem eraseSeq_sublist (k : Nat) (l : List (Nat × String)) :
    (eraseSeq k l).Sublist l := by
  induction l with
  | nil => simp [eraseSeq]
  | cons p ps ih =>
    by_cases hp : p.1 = k
    · simp only [eraseSeq, if_pos hp]
      exact List.sublist_cons_self p ps
    · simp only [eraseSeq, if_neg hp]
      exact ih.cons₂ p

theorem length_eraseSeq_lt {k : Nat} {l : List (Nat × String)} {t : String}
    (h : lookupSeq k l = Option.some t) :
    (eraseSeq k l).length < l.length := by
  induction l with
  | nil => exact absurd h (by simp [lookupSeq])
  | cons p ps ih =>
    by_cases hp : p.1 = k
    · simp only [eraseSeq, if_pos hp, List.length_cons]
      exact Nat.lt_succ_self _
    · simp only [lookupSeq, if_neg hp] at h
      simp only [eraseSeq, if_neg hp, List.length_cons]
      exact Nat.succ_lt_succ (ih h)

theorem mem_eraseSeq_of_ne {p : Nat × String} {k : Nat}
    {l : List (Nat × String)} (hp : p ∈ l) (hne : p.1 ≠ k) :
    p ∈ eraseSeq k l := by
  induction l with
  | nil => exact absurd hp (List.not_mem_nil p)
  | cons q qs ih =>
    by_cases hq : q.1 = k
    · simp only [eraseSeq, if_pos hq]
      rcases List.mem_cons.mp hp with rfl | hmem
      · exact absurd hq hne
      · exact hmem
    · simp only [eraseSeq, if_neg hq]
      rcases List.mem_cons.mp hp with rfl | hmem
      · exact List.mem_cons_self p _
      · exact List.mem_cons_of_mem q (ih hmem)

theorem keysOf_eraseSeq_not_mem {k : Nat} {l : List (Nat × String)}
    (hnd : (keysOf l).Nodup) : k ∉ keysOf (eraseSeq k l) := by
  induction l with
  | nil => simp [eraseSeq, keysOf]
  | cons p ps ih =>
    rw [show keysOf (p :: ps) = p.1 :: keysOf ps from rfl,
      List.nodup_cons] at hnd
    by_cases hp : p.1 = k
    · simp only [eraseSeq, if_pos hp]
      rw [← hp]
      exact hnd.1
    · simp only [eraseSeq, if_neg hp]
      rw [show keysOf (p :: eraseSeq k ps) = p.1 :: keysOf (eraseSeq k ps)
        from rfl, List.mem_cons, not_or]
      exact ⟨fun he => hp he.symm, ih hnd.2⟩

theorem drainAux_inv (texts : List String) (ks : List Nat) :
    ∀ (fuel : Nat) (s : AsmState), s.buf.length ≤ fuel →
    (keysOf s.buf).Nodup →
    (∀ p ∈ s.buf, texts[p.1]? = Option.some p.2 ∧ s.next ≤ p.1) →
    s.out = texts.take s.next →
    (∀ i < s.next, i ∈ ks) →
    (∀ i ∈ keysOf s.buf, i ∈ ks) →
    (∀ i ∈ ks, s.next ≤ i → i ∈ keysOf s.buf) →
    AsmInv texts ks (drainAux fuel s) := by
  intro fuel
  induction fuel with
  | zero =>
    intro s hlen h0 h1 h2 h3 h4 h5
    have hbuf : s.buf = [] := List.length_eq_zero.mp (Nat.le_zero.mp hlen)
    refine ⟨h0, h1, h2, h3, h4, h5, ?_⟩
    show lookupSeq s.next s.buf = Option.none
    rw [hbuf]
    rfl
  | succ fuel ih =>
    intro s hlen h0 h1 h2 h3 h4 h5
    cases hlook : lookupSeq s.next s.buf with
    | none =>
      rw [show drainAux (fuel + 1) s = s by simp [drainAux, hlook]]
      exact ⟨h0, h1, h2, h3, h4, h5, hlook⟩
    | some t =>
      rw [show drainAux (fuel + 1) s =
          drainAux fuel ⟨s.next + 1, eraseSeq s.next s.buf, s.out ++ [t]⟩ by
        simp [drainAux, hlook]]
      have hmem : (s.next, t) ∈ s.buf := mem_of_lookupSeq hlook
      have hGet : texts[s.next]? = Option.some t := (h1 _ hmem).1
      have hsub := eraseSeq_sublist s.next s.buf
      apply ih
      · have := length_eraseSeq_lt hlook
        simpa using Nat.lt_succ_iff.mp (Nat.lt_of_lt_of_le this hlen)
      · exact ((hsub.map Prod.fst).nodup h0 : (keysOf _).Nodup)
      · intro p hp
        have hpl : p ∈ s.buf := hsub.subset hp
        refine ⟨(h1 p hpl).1, ?_⟩
        have hge : s.next ≤ p.1 := (h1 p hpl).2
        have hne : p.1 ≠ s.next := by
          intro he
          exact keysOf_eraseSeq_not_mem h0
            (he ▸ List.mem_map_of_mem Prod.fst hp)
        show s.next + 1 ≤ p.1
        omega
      · show s.out ++ [t] = texts.take (s.next + 1)
        rw [h2, List.take_succ, hGet]
        rfl
      · intro i hi
        have hi2 : i < s.next + 1 := hi
        rcases Nat.lt_succ_iff_lt_or_eq.mp hi2 with hlt | heq
        · exact h3 i hlt
        · exact h4 i (heq ▸ List.mem_map_of_mem Prod.fst hmem)
      · intro i hik
        obtain ⟨p, hp, hpi⟩ := List.mem_map.mp hik
        exact h4 i (hpi ▸ List.mem_map_of_mem Prod.fst (hsub.subset hp))
      · intro i hiks hge
        have hge2 : s.next + 1 ≤ i := hge
        obtain ⟨p, hp, hpi⟩ := List.mem_map.mp (h5 i hiks (by omega))
        have hne : p.1 ≠ s.next := by omega
        exact hpi ▸ List.mem_map_of_mem Prod.fst (mem_eraseSeq_of_ne hp hne)

theorem asmStep_inv (texts : List String) (ks : List Nat) (s : AsmState)
    (hInv : AsmInv texts ks s) (c : Nat × String)
    (hgood : texts[c.1]? = Option.some c.2) (hnew : c.1 ∉ ks) :
    AsmInv texts (ks ++ [c.1]) (asmStep s c) := by
  unfold asmStep drain
  apply drainAux_inv
  · exact le_refl _
  · show (keysOf (c :: s.buf)).Nodup
    rw [show keysOf (c :: s.buf) = c.1 :: keysOf s.buf from rfl,
      List.nodup_cons]
    exact ⟨fun hmem => hnew (hInv.bufProcessed _ hmem), hInv.nodupBuf⟩
  · intro p hp
    rcases List.mem_cons.mp hp with rfl | hp'
    · refine ⟨hgood, ?_⟩
      show s.next ≤ p.1
      by_contra hlt
      push_neg at hlt
      exact hnew (hInv.belowProcessed p.1 hlt)
    · exact hInv.bufGood p hp'
  · exact hInv.outTake
  · intro i hi
    exact List.mem_append_left _ (hInv.belowProcessed i hi)
  · intro i hik
    rcases List.mem_cons.mp
        (show i ∈ c.1 :: keysOf s.buf from hik) with rfl | hmem
    · exact List.mem_append_right _ (List.mem_singleton_self _)
    · exact List.mem_append_left _ (hInv.bufProcessed i hmem)
  · intro i hiks hge
    rcases List.mem_append.mp hiks with hks | hc
    · exact List.mem_cons_of_mem c.1 (hInv.pendingBuffered i hks hge)
    · have : i = c.1 := by simpa using hc
      rw [this]
      exact List.mem_cons_self c.1 (keysOf s.buf)

theorem foldl_asmStep_inv (texts : List String) :
    ∀ (cs : List (Nat × String)) (ks : List Nat) (s : AsmState),
    AsmInv texts ks s →
    (∀ p ∈ cs, texts[p.1]? = Option.some p.2) →
    (ks ++ keysOf cs).Nodup →
    AsmInv texts (ks ++ keysOf cs) (cs.foldl asmStep s) := by
  intro cs
  induction cs with
  | nil =>
    intro ks s hInv _ _
    simpa [keysOf] using hInv
  | cons c cs ih =>
    intro ks s hInv hgood hnd
    have hshape : ks ++ keysOf (c :: cs) = (ks ++ [c.1]) ++ keysOf cs := by
      simp [keysOf]
    have hnd' : ((ks ++ [c.1]) ++ keysOf cs).Nodup := by rwa [hshape] at hnd
    have hnew : c.1 ∉ ks := by
      intro hc
      have hdisj := (List.nodup_append.mp hnd).2.2
      exact hdisj hc (by simp [keysOf])
    have h1 := asmStep_inv texts ks s hInv c (hgood c (by simp)) hnew
    have h2 := ih (ks ++ [c.1]) (asmStep s c) h1
      (fun p hp => hgood p (by simp [hp])) hnd'
    rw [List.foldl_cons, hshape]
    exact h2

/-- C2: modelled from the spec (the Rust dictation pipeline under
src-tauri is not part of the sources; spec §4.3 and §5 require transcript
assembly to be strictly utterance-sequence-ordered through an ordering
buffer keyed by sequence number) — for a session whose VAD closed
utterances yield per-utterance punctuated ASR texts, any completion order
of the concurrent workers assembles the same transcript: the punctuated
segments concatenated in utterance-sequence order. -/
theorem transcript_order_independent {Utt : Type} (asr : Utt → String)
    (punct : String → String) (us : List Utt)
    (completions : List (Nat × String))
    (hperm : completions.Perm ((segmentTexts asr punct us).enum)) :
    (assemble completions).out = segmentTexts asr punct us ∧
    String.join ((assemble completions).out) =
      String.join (segmentTexts asr punct us) := by
  set texts := segmentTexts asr punct us with htexts
  have hgood : ∀ p ∈ completions, texts[p.1]? = Option.some p.2 := by
    intro p hp
    exact List.mem_enum_iff_getElem?.mp (hperm.mem_iff.mp hp)
  have hkeys : (keysOf completions).Perm (List.range texts.length) := by
    have hmap := hperm.map Prod.fst
    rwa [List.enum_map_fst] at hmap
  have hnd : (keysOf completions).Nodup :=
    hkeys.nodup_iff.mpr (List.nodup_range _)
  have hInv0 : AsmInv texts [] ⟨0, [], []⟩ := by
    refine ⟨List.nodup_nil, ?_, rfl, ?_, ?_, ?_, rfl⟩
    · intro p hp
      exact absurd hp (List.not_mem_nil p)
    · intro i hi
      exact absurd hi (Nat.not_lt_zero i)
    · intro i hi
      exact absurd hi (List.not_mem_nil i)
    · intro i hi
      exact absurd hi (List.not_mem_nil i)
  have hfin := foldl_asmStep_inv texts completions [] ⟨0, [], []⟩ hInv0
    hgood (by simpa using hnd)
  simp only [List.nil_append] at hfin
  have hfin2 : AsmInv texts (keysOf completions) (assemble completions) :=
    hfin
  have hout : (assemble completions).out = texts := by
    have hle : (assemble completions).next ≤ texts.length := by
      by_contra hgt
      push_neg at hgt
      have hmem := hfin2.belowProcessed texts.length hgt
      have := hkeys.mem_iff.mp hmem
      simp [List.mem_range] at this
    have hge : texts.length ≤ (assemble completions).next := by
      by_contra hlt
      push_neg at hlt
      have hmemk : (assemble completions).next ∈ keysOf completions :=
        hkeys.mem_iff.mpr (List.mem_range.mpr hlt)
      have hbuf := hfin2.pendingBuffered _ hmemk (le_refl _)
      exact (lookupSeq_eq_none_iff _ _).mp hfin2.drained hbuf
    rw [hfin2.outTake, le_antisymm hle hge, List.take_length]
  exact ⟨hout, by rw [hout]⟩

/-- C2 witness: two utterances completing in reversed order still
assemble in utterance-sequence order. -/
theorem transcript_order_independent_w :
    (assemble [(1, "天气不错。"), (0, "今天。")]).out =
      segmentTexts (fun u : String => u) (fun t => t ++ "。")
        ["今天", "天气不错"] ∧
    String.join ((assemble [(1, "天气不错。"), (0, "今天。")]).out) =
      String.join (segmentTexts (fun u : String => u) (fun t => t ++ "。")
        ["今天", "天气不错"]) :=
  transcript_order_independent (fun u : String => u) (fun t => t ++ "。")
    ["今天", "天气不错"] [(1, "天气不错。"), (0, "今天。")] (by decide)
